import Mathlib

/-!
Verification of the stay-fresh-lsp-proxy core (src/proxy.ts): the
incremental LSP frame parser (`MessageParser`), the diagnostic filter
(`filterDiagnostics`), frame encoding (`encodeMessage`) and runtime
configuration resolution (`config`).

Bytes are modelled as natural numbers; buffers as lists of bytes; the
JSON decode step (`JSON.parse` over the UTF-8 text of a body) is an
abstract parameter `dec : List Nat → Option M`, since `JSON.parse` is a
JavaScript builtin external to the repository.
-/

namespace StayFresh

/-- The byte sequence of the header/body separator "\r\n\r\n". -/
def sepBytes : List Nat := [13, 10, 13, 10]

/-- The separator occurs in `l` starting at position `q`. -/
def IsSepAt (l : List Nat) (q : Nat) : Prop := (l.drop q).take 4 = sepBytes

instance (l : List Nat) (q : Nat) : Decidable (IsSepAt l q) := by
  unfold IsSepAt; infer_instance

/-- Model of `this.buffer.indexOf("\r\n\r\n")`: index of the first
occurrence of the separator in the buffer, or `none`. -/
def findSep : List Nat → Option Nat
  | [] => none
  | a :: rest =>
    if (a :: rest).take 4 = sepBytes then some 0
    else (findSep rest).map (fun q => q + 1)

theorem isSepAt_cons_succ (a : Nat) (l : List Nat) (q : Nat) :
    IsSepAt (a :: l) (q + 1) ↔ IsSepAt l q := Iff.rfl

theorem isSepAt_zero (l : List Nat) : IsSepAt l 0 ↔ l.take 4 = sepBytes := Iff.rfl

/-- `findSep` characterised: it returns exactly the least position of a
separator occurrence. -/
theorem findSep_eq_some_iff (l : List Nat) (p : Nat) :
    findSep l = some p ↔ (IsSepAt l p ∧ ∀ q, q < p → ¬ IsSepAt l q) := by
  induction l generalizing p with
  | nil =>
    simp only [findSep]
    constructor
    · intro h; cases h
    · rintro ⟨hp, -⟩
      simp [IsSepAt, sepBytes] at hp
  | cons a rest ih =>
    simp only [findSep]
    by_cases h4 : (a :: rest).take 4 = sepBytes
    · simp only [h4, if_true]
      constructor
      · intro h
        cases h
        exact ⟨h4, by omega⟩
      · rintro ⟨hp, hmin⟩
        rcases p with _ | p
        · rfl
        · exact absurd h4 (hmin 0 (Nat.succ_pos p))
    · simp only [h4, if_false]
      constructor
      · intro h
        rcases hfound : findSep rest with _ | q
        · simp [hfound] at h
        · simp only [hfound, Option.map_some'] at h
          cases h
          rcases (ih q).mp hfound with ⟨hq, hqmin⟩
          refine ⟨hq, ?_⟩
          intro r hr
          rcases r with _ | r
          · exact fun hc => h4 hc
          · exact fun hc => hqmin r (by omega) hc
      · rintro ⟨hp, hmin⟩
        rcases p with _ | p
        · exact absurd hp h4
        · have hrest : findSep rest = some p := by
            refine (ih p).mpr ⟨hp, ?_⟩
            intro q hq
            exact hmin (q + 1) (by omega)
          rw [hrest]; rfl

theorem findSep_eq_none_iff (l : List Nat) :
    findSep l = none ↔ ∀ q, ¬ IsSepAt l q := by
  constructor
  · intro h q hq
    have hex : ∃ r, IsSepAt l r := ⟨q, hq⟩
    have hfind := (findSep_eq_some_iff l (Nat.find hex)).mpr
      ⟨Nat.find_spec hex, fun r hr => Nat.find_min hex hr⟩
    simp [h] at hfind
  · intro h
    rcases hfound : findSep l with _ | p
    · rfl
    · exact absurd ((findSep_eq_some_iff l p).mp hfound).1 (h p)

theorem isSepAt_length_le (l : List Nat) (q : Nat) (h : IsSepAt l q) :
    q + 4 ≤ l.length := by
  unfold IsSepAt at h
  have hlen : ((l.drop q).take 4).length = 4 := by rw [h]; rfl
  simp only [List.length_take, List.length_drop] at hlen
  omega

theorem findSep_bound (l : List Nat) (p : Nat) (h : findSep l = some p) :
    p + 4 ≤ l.length :=
  isSepAt_length_le l p ((findSep_eq_some_iff l p).mp h).1

/-- An occurrence entirely inside the left part survives appending. -/
theorem isSepAt_append_of_le (l ys : List Nat) (q : Nat) (hq : q + 4 ≤ l.length) :
    IsSepAt (l ++ ys) q ↔ IsSepAt l q := by
  unfold IsSepAt
  rw [List.drop_append_of_le_length (by omega), List.take_append_of_le_length]
  simp only [List.length_drop]
  omega

/-- Appending more bytes does not change the position of the first
separator occurrence, when one is already present. -/
theorem findSep_append_of_some (l ys : List Nat) (p : Nat)
    (h : findSep l = some p) : findSep (l ++ ys) = some p := by
  rcases (findSep_eq_some_iff l p).mp h with ⟨hp, hmin⟩
  have hple : p + 4 ≤ l.length := isSepAt_length_le l p hp
  refine (findSep_eq_some_iff (l ++ ys) p).mpr ⟨?_, ?_⟩
  · exact (isSepAt_append_of_le l ys p hple).mpr hp
  · intro q hq hc
    have hqle : q + 4 ≤ l.length := by omega
    exact hmin q hq ((isSepAt_append_of_le l ys q hqle).mp hc)

/-! ### Header matching

Model of `headerBlock.match(/Content-Length:\s*(\d+)/i)` followed by
`parseInt(match[1], 10)`.  The header block is the buffer prefix decoded
with Node's "ascii" decoding, which masks each byte with `0x7f`; the
regex scans left to right for the first position where the
case-insensitive literal "Content-Length:" is followed by optional
whitespace and at least one decimal digit, and captures the maximal
digit run. -/

/-- ASCII lower-casing of one character code, as the `i` regex flag does
for the letters of the literal. -/
def lowerCh (c : Nat) : Nat := if 65 ≤ c ∧ c ≤ 90 then c + 32 else c

/-- Character class `\d` (restricted to codes reachable after the ascii
mask). -/
def isDigitCh (c : Nat) : Bool := decide (48 ≤ c ∧ c ≤ 57)

/-- Character class `\s` (restricted to codes reachable after the ascii
mask). -/
def isSpaceCh (c : Nat) : Bool :=
  decide (c = 9 ∨ c = 10 ∨ c = 11 ∨ c = 12 ∨ c = 13 ∨ c = 32)

/-- The character codes of "content-length:". -/
def clTarget : List Nat :=
  [99, 111, 110, 116, 101, 110, 116, 45, 108, 101, 110, 103, 116, 104, 58]

/-- `parseInt(ds, 10)` on a nonempty all-digit string. -/
def parseDigits (ds : List Nat) : Nat :=
  ds.foldl (fun a c => a * 10 + (c - 48)) 0

/-- Try the regex at the start of `l`: the literal (case-insensitive),
then `\s*`, then a nonempty digit run; return the parsed capture. -/
def matchCLAt (l : List Nat) : Option Nat :=
  if (l.take 15).map lowerCh = clTarget then
    if ((l.drop 15).dropWhile isSpaceCh).takeWhile isDigitCh = [] then none
    else some (parseDigits (((l.drop 15).dropWhile isSpaceCh).takeWhile isDigitCh))
  else none

/-- Regex search: first position (left to right) where `matchCLAt`
succeeds. -/
def searchCL : List Nat → Option Nat
  | [] => none
  | c :: rest =>
    match matchCLAt (c :: rest) with
    | some n => some n
    | none => searchCL rest

/-! ### The stream parser state machine (`MessageParser`) -/

/-- The private state of `MessageParser`: the pending byte buffer and
the `contentLength` field (`none` = `AwaitingHeader`,
`some n` = `AwaitingBody(n)`). -/
structure ParserState where
  buffer : List Nat
  contentLength : Option Nat
  deriving DecidableEq, Repr

/-- Result of one iteration of the `while (true)` loop in
`MessageParser.drain`. -/
inductive StepRes (M : Type) where
  | suspend : StepRes M
  | cont : ParserState → Option M → StepRes M
  deriving DecidableEq, Repr

/-- One iteration of `drain`'s loop, split at the two suspension points.
`suspend` is a `return`; `cont s' out` continues with the new state,
having emitted `out` (at most one message per body consumed; the header
phase emits nothing).  `dec` is the composite `JSON.parse` over the
UTF-8 text of the body, `none` when it throws. -/
def drainStep (dec : List Nat → Option M) (s : ParserState) : StepRes M :=
  match s.contentLength with
  | none =>
    match findSep s.buffer with
    | none => .suspend
    | some p =>
      match searchCL ((s.buffer.take p).map (fun c => c % 128)) with
      | none => .cont ⟨s.buffer.drop (p + 4), none⟩ none
      | some n => .cont ⟨s.buffer.drop (p + 4), some n⟩ none
  | some n =>
    if s.buffer.length < n then .suspend
    else .cont ⟨s.buffer.drop n, none⟩ (dec (s.buffer.take n))

/-- Termination measure for the drain loop: every continuing step either
strictly shrinks the buffer (header consumed) or moves from
`AwaitingBody` to `AwaitingHeader` without growing the buffer. -/
def stateMeasure (s : ParserState) : Nat :=
  s.buffer.length + (match s.contentLength with | some _ => 1 | none => 0)

theorem drainStep_lt {M : Type} (dec : List Nat → Option M) (s s' : ParserState)
    (out : Option M) (h : drainStep dec s = .cont s' out) :
    stateMeasure s' < stateMeasure s := by
  rcases s with ⟨buf, cl⟩
  unfold drainStep at h
  rcases cl with _ | n <;> dsimp only at h
  · split at h
    · cases h
    · rename_i p hfound
      have hple := findSep_bound buf p hfound
      split at h <;> cases h <;>
        simp only [stateMeasure, List.length_drop] <;> omega
  · split at h
    · cases h
    · rename_i hge
      cases h
      simp only [stateMeasure, List.length_drop]
      omega

/-- The `drain` loop run to quiescence: final state and the list of
messages emitted (in emission order). -/
def drainList (dec : List Nat → Option M) (s : ParserState) :
    ParserState × List M :=
  match h : drainStep dec s with
  | .suspend => (s, [])
  | .cont s' out =>
    have : stateMeasure s' < stateMeasure s := drainStep_lt dec s s' out h
    let r := drainList dec s'
    (r.1, out.toList ++ r.2)
termination_by stateMeasure s

/-- Unfolding law for `drainList`. -/
theorem drainList_eq (dec : List Nat → Option M) (s : ParserState) :
    drainList dec s =
      match drainStep dec s with
      | .suspend => (s, [])
      | .cont s' out =>
        let r := drainList dec s'
        (r.1, out.toList ++ r.2) := by
  rw [drainList]
  split <;> rename_i heq <;> simp only [heq]

theorem drainList_suspend (dec : List Nat → Option M) (s : ParserState)
    (h : drainStep dec s = .suspend) : drainList dec s = (s, []) := by
  rw [drainList_eq, h]

theorem drainList_cont (dec : List Nat → Option M) (s s' : ParserState)
    (out : Option M) (h : drainStep dec s = .cont s' out) :
    drainList dec s = ((drainList dec s').1, out.toList ++ (drainList dec s').2) := by
  rw [drainList_eq, h]

/-- `feed(chunk, onMessage)`: append the chunk to the buffer, then
drain. -/
def feed (dec : List Nat → Option M) (s : ParserState) (chunk : List Nat) :
    ParserState × List M :=
  drainList dec ⟨s.buffer ++ chunk, s.contentLength⟩

/-- A fresh `MessageParser`. -/
def initState : ParserState := ⟨[], none⟩

/-- Feeding a sequence of chunks one after the other, collecting all
emitted messages in order. -/
def feedAll (dec : List Nat → Option M) (s : ParserState) :
    List (List Nat) → ParserState × List M
  | [] => (s, [])
  | c :: cs =>
    let r := feed dec s c
    let r₂ := feedAll dec r.1 cs
    (r₂.1, r.2 ++ r₂.2)

/-! ### Chunk-boundary independence -/

/-- A continuing drain step commutes with appending further bytes to the
buffer: the step fires identically and the appended bytes ride along. -/
theorem drainStep_append (dec : List Nat → Option M) (s s' : ParserState)
    (out : Option M) (ys : List Nat) (h : drainStep dec s = .cont s' out) :
    drainStep dec ⟨s.buffer ++ ys, s.contentLength⟩ =
      .cont ⟨s'.buffer ++ ys, s'.contentLength⟩ out := by
  rcases s with ⟨buf, cl⟩
  unfold drainStep at h ⊢
  rcases cl with _ | n <;> dsimp only at h ⊢
  · split at h
    · cases h
    · rename_i p hfound
      have hple := findSep_bound buf p hfound
      split at h <;> rename_i hcl <;> cases h <;>
        simp only [findSep_append_of_some buf ys p hfound,
          List.take_append_of_le_length (show p ≤ buf.length by omega), hcl,
          List.drop_append_of_le_length (show p + 4 ≤ buf.length from hple)]
  · split at h
    · cases h
    · rename_i hge
      cases h
      rw [if_neg (by simp only [List.length_append]; omega)]
      simp only [List.take_append_of_le_length (show n ≤ buf.length by omega),
        List.drop_append_of_le_length (show n ≤ buf.length by omega)]

/-- The state left behind by a full drain is quiescent: the next step
suspends (this is exactly why `drain` returned). -/
theorem drainList_quiescent (dec : List Nat → Option M) (s : ParserState) :
    drainStep dec (drainList dec s).1 = .suspend := by
  suffices h : ∀ n s, stateMeasure s = n → drainStep dec (drainList dec s).1 = .suspend from
    h (stateMeasure s) s rfl
  intro n
  induction n using Nat.strong_induction_on with
  | _ n ih =>
    intro s hs
    rcases hstep : drainStep dec s with _ | ⟨s', out⟩
    · rw [drainList_suspend dec s hstep]
      exact hstep
    · rw [drainList_cont dec s s' out hstep]
      exact ih (stateMeasure s') (hs ▸ drainStep_lt dec s s' out hstep) s' rfl

/-- Feeding `ys` to any state is the same as first draining the state
(collecting its output) and then feeding `ys` to the drained state. -/
theorem feed_after_drain (dec : List Nat → Option M) (s : ParserState)
    (ys : List Nat) :
    feed dec s ys =
      ((feed dec (drainList dec s).1 ys).1,
        (drainList dec s).2 ++ (feed dec (drainList dec s).1 ys).2) := by
  suffices h : ∀ n s, stateMeasure s = n →
      feed dec s ys =
        ((feed dec (drainList dec s).1 ys).1,
          (drainList dec s).2 ++ (feed dec (drainList dec s).1 ys).2) from
    h (stateMeasure s) s rfl
  intro n
  induction n using Nat.strong_induction_on with
  | _ n ih =>
    intro s hs
    rcases hstep : drainStep dec s with _ | ⟨s', out⟩
    · rw [drainList_suspend dec s hstep]
      simp
    · have hstep2 := drainStep_append dec s s' out ys hstep
      have ih' := ih (stateMeasure s') (hs ▸ drainStep_lt dec s s' out hstep) s' rfl
      simp only [feed] at ih' ⊢
      rw [drainList_cont dec ⟨s.buffer ++ ys, s.contentLength⟩
            ⟨s'.buffer ++ ys, s'.contentLength⟩ out hstep2,
          drainList_cont dec s s' out hstep]
      simp only [ih', List.append_assoc]

/-- Feeding chunks one at a time, starting from a quiescent state,
equals feeding their concatenation at once. -/
theorem feedAll_eq_feed_join (dec : List Nat → Option M) (s : ParserState)
    (chunks : List (List Nat)) (hq : drainStep dec s = .suspend) :
    feedAll dec s chunks = feed dec s chunks.flatten := by
  induction chunks generalizing s with
  | nil =>
    simp only [feedAll, List.flatten_nil, feed, List.append_nil]
    rw [drainList_suspend dec s hq]
  | cons c cs ih =>
    have hsplit :
        feed dec s (c ++ cs.flatten) =
          ((feed dec (feed dec s c).1 cs.flatten).1,
            (feed dec s c).2 ++ (feed dec (feed dec s c).1 cs.flatten).2) := by
      have := feed_after_drain dec ⟨s.buffer ++ c, s.contentLength⟩ cs.flatten
      simp only [feed] at this ⊢
      rw [List.append_assoc] at this
      exact this
    simp only [feedAll, List.flatten_cons, hsplit]
    rw [ih (feed dec s c).1 (drainList_quiescent dec ⟨s.buffer ++ c, s.contentLength⟩)]

/-! ### Frames -/

/-- A header block that does not run into the separator early: no
separator occurrence begins strictly before its end once the separator
is appended.  This is what makes a header block end exactly at its own
terminating blank line. -/
def SepFreeHeader (hd : List Nat) : Prop :=
  ∀ q, q < hd.length → ¬ IsSepAt (hd ++ sepBytes) q

/-- One wire frame: a header block and a body. -/
structure Frame where
  header : List Nat
  body : List Nat
  deriving DecidableEq, Repr

/-- The bytes of a frame on the wire: header, blank-line separator,
body. -/
def Frame.bytes (fr : Frame) : List Nat := fr.header ++ sepBytes ++ fr.body

/-- A valid frame: its header block ends at its own separator and
declares (via the Content-Length regex) exactly the body's byte
count. -/
def Frame.Wf (fr : Frame) : Prop :=
  SepFreeHeader fr.header ∧
  searchCL (fr.header.map (fun c => c % 128)) = some fr.body.length

theorem take_header (hd rest : List Nat) :
    ((hd ++ sepBytes) ++ rest).take hd.length = hd := by
  rw [List.append_assoc, List.take_append_of_le_length (Nat.le_refl hd.length),
    List.take_length]

theorem drop_header (hd rest : List Nat) :
    ((hd ++ sepBytes) ++ rest).drop (hd.length + 4) = rest := by
  rw [show hd.length + 4 = (hd ++ sepBytes).length from by simp [sepBytes],
    List.drop_left]

theorem findSep_frame (hd rest : List Nat) (hsf : SepFreeHeader hd) :
    findSep (hd ++ sepBytes ++ rest) = some hd.length := by
  refine (findSep_eq_some_iff _ _).mpr ⟨?_, ?_⟩
  · unfold IsSepAt
    rw [List.append_assoc, List.drop_append_of_le_length (Nat.le_refl hd.length),
      List.drop_length, List.nil_append,
      List.take_append_of_le_length (by simp [sepBytes])]
    simp [sepBytes]
  · intro q hq
    have hqle : q + 4 ≤ (hd ++ sepBytes).length := by
      simp only [List.length_append, sepBytes, List.length_cons, List.length_nil]
      omega
    rw [isSepAt_append_of_le (hd ++ sepBytes) rest q hqle]
    exact hsf q hq

/-- Draining a buffer that starts with a valid frame consumes the frame,
emits its decoded body (if the decode succeeds; nothing otherwise), and
then proceeds on the remainder exactly as if the frame had never been
there. -/
theorem drainList_frame (dec : List Nat → Option M) (fr : Frame)
    (rest : List Nat) (hwf : fr.Wf) :
    drainList dec ⟨fr.bytes ++ rest, none⟩ =
      ((drainList dec ⟨rest, none⟩).1,
        (dec fr.body).toList ++ (drainList dec ⟨rest, none⟩).2) := by
  rcases fr with ⟨hd, body⟩
  rcases hwf with ⟨hsf, hcl⟩
  have hbytes : Frame.bytes ⟨hd, body⟩ ++ rest = (hd ++ sepBytes) ++ (body ++ rest) := by
    simp [Frame.bytes, List.append_assoc]
  have hstep1 : drainStep dec ⟨(hd ++ sepBytes) ++ (body ++ rest), none⟩ =
      .cont ⟨body ++ rest, some body.length⟩ none := by
    unfold drainStep
    dsimp only
    rw [findSep_frame hd (body ++ rest) hsf]
    dsimp only
    rw [take_header hd (body ++ rest), hcl]
    dsimp only
    rw [drop_header hd (body ++ rest)]
  have hstep2 : drainStep dec ⟨body ++ rest, some body.length⟩ =
      .cont ⟨rest, none⟩ (dec body) := by
    unfold drainStep
    dsimp only
    rw [if_neg (by simp only [List.length_append]; omega)]
    rw [List.take_left, List.drop_left]
  rw [hbytes, drainList_cont dec _ _ _ hstep1, drainList_cont dec _ _ _ hstep2]
  simp

/-- Draining a buffer that starts with a header block carrying no
parsable Content-Length field discards the bytes up through the
separator and continues on the remainder from `AwaitingHeader`,
emitting nothing for the malformed block. -/
theorem drainList_malformed_header (dec : List Nat → Option M)
    (hd rest : List Nat) (hsf : SepFreeHeader hd)
    (hncl : searchCL (hd.map (fun c => c % 128)) = none) :
    drainList dec ⟨(hd ++ sepBytes) ++ rest, none⟩ =
      drainList dec ⟨rest, none⟩ := by
  have hstep : drainStep dec ⟨(hd ++ sepBytes) ++ rest, none⟩ =
      .cont ⟨rest, none⟩ none := by
    unfold drainStep
    dsimp only
    rw [findSep_frame hd rest hsf]
    dsimp only
    rw [take_header hd rest, hncl]
    dsimp only
    rw [drop_header hd rest]
  rw [drainList_cont dec _ _ _ hstep]
  simp

/-- The bytes of a sequence of frames, concatenated. -/
def framesBytes (fs : List Frame) : List Nat := (fs.map Frame.bytes).flatten

/-- Draining a buffer holding any number of valid frames emits exactly
the successfully decoded bodies, in order, and empties the buffer. -/
theorem drainList_frames (dec : List Nat → Option M) (fs : List Frame)
    (hwf : ∀ fr ∈ fs, fr.Wf) :
    drainList dec ⟨framesBytes fs, none⟩ =
      (initState, fs.filterMap (fun fr => dec fr.body)) := by
  induction fs with
  | nil =>
    show drainList dec initState = (initState, [])
    rw [drainList_suspend dec initState rfl]
  | cons fr fs ih =>
    have hfr := hwf fr (List.mem_cons_self fr fs)
    have hrest : ∀ g ∈ fs, g.Wf := fun g hg => hwf g (List.mem_cons_of_mem fr hg)
    simp only [framesBytes, List.map_cons, List.flatten_cons] at ih ⊢
    rw [drainList_frame dec fr _ hfr, ih hrest, List.filterMap_cons]
    cases hdec : dec fr.body <;> simp [hdec]

theorem filterMap_dec_of_forall₂ (dec : List Nat → Option M) (fs : List Frame)
    (msgs : List M)
    (h : List.Forall₂ (fun fr m => dec fr.body = some m) fs msgs) :
    fs.filterMap (fun fr => dec fr.body) = msgs := by
  induction h with
  | nil => rfl
  | cons h1 h2 ih =>
    rw [List.filterMap_cons, h1, ih]

instance (hd : List Nat) : Decidable (SepFreeHeader hd) := by
  unfold SepFreeHeader
  exact Nat.decidableBallLT _ _

instance (fr : Frame) : Decidable fr.Wf := by
  unfold Frame.Wf
  infer_instance

/-- A concrete body decoder used by witnesses: a body is "well-formed
JSON" when it is a nonempty digit string, and decodes to its value. -/
def decDigits (bs : List Nat) : Option Nat :=
  if bs ≠ [] ∧ bs.all isDigitCh then some (parseDigits bs) else none

/-- Header bytes "Content-Length: 2". -/
def hdrTwo : List Nat :=
  [67, 111, 110, 116, 101, 110, 116, 45, 76, 101, 110, 103, 116, 104, 58, 32, 50]

/-- Header bytes "Content-Length: 1". -/
def hdrOne : List Nat :=
  [67, 111, 110, 116, 101, 110, 116, 45, 76, 101, 110, 103, 116, 104, 58, 32, 49]

/-- A frame carrying the two-byte body "12". -/
def frTwelve : Frame := ⟨hdrTwo, [49, 50]⟩

/-- A frame carrying the one-byte body "7". -/
def frSeven : Frame := ⟨hdrOne, [55]⟩

/-- A frame whose header is valid but whose body "a" is not decodable. -/
def frBadBody : Frame := ⟨hdrOne, [97]⟩

/-- Header bytes "X", which contain no Content-Length field. -/
def hdrJunk : List Nat := [88]

/-- C1: for every byte sequence, feeding it to the Stream Parser split
into chunks at arbitrary points yields exactly the same final state and
the same ordered sequence of emitted messages as feeding the whole
sequence as one chunk.  (The claim asks this for valid frame sequences;
it holds for arbitrary byte sequences, valid or not.) -/
theorem C1_chunk_boundary_independence (M : Type) (dec : List Nat → Option M)
    (chunks : List (List Nat)) :
    feedAll dec initState chunks = feed dec initState chunks.flatten :=
  feedAll_eq_feed_join dec initState chunks rfl

/-- C6: a single feed of a chunk containing any number of complete
valid concatenated frames emits all of the corresponding messages, in
arrival order, before `feed` returns; the final state has an empty
buffer (so no complete frame remains buffered) and is back in
`AwaitingHeader`. -/
theorem C6_multi_frame_draining (M : Type) (dec : List Nat → Option M)
    (fs : List Frame) (msgs : List M) (hwf : ∀ fr ∈ fs, fr.Wf)
    (hdec : List.Forall₂ (fun fr m => dec fr.body = some m) fs msgs) :
    feed dec initState (framesBytes fs) = (initState, msgs) := by
  simp only [feed, initState, List.nil_append]
  rw [drainList_frames dec fs hwf, filterMap_dec_of_forall₂ dec fs msgs hdec]
  rfl

/-- Witness for C6: the two frames "Content-Length: 2\r\n\r\n12" and
"Content-Length: 1\r\n\r\n7" fed in one chunk emit the two messages in
arrival order and leave an empty buffer. -/
theorem C6_multi_frame_draining_witness :
    (∀ fr ∈ [frTwelve, frSeven], fr.Wf) ∧
    List.Forall₂ (fun fr m => decDigits fr.body = some m) [frTwelve, frSeven]
      [12, 7] ∧
    feed decDigits initState (framesBytes [frTwelve, frSeven]) =
      (initState, [12, 7]) := by
  refine ⟨by decide, ?_, ?_⟩
  · exact List.Forall₂.cons (by decide) (List.Forall₂.cons (by decide) List.Forall₂.nil)
  · exact C6_multi_frame_draining Nat decDigits [frTwelve, frSeven] [12, 7]
      (by decide)
      (List.Forall₂.cons (by decide) (List.Forall₂.cons (by decide) List.Forall₂.nil))

/-- C7: stream corruption is contained to one frame.  A header block
with no parsable Content-Length field is discarded up through the
blank-line separator and parsing resumes in `AwaitingHeader`; a
complete body that fails JSON decoding drops only that one message; in
both cases every subsequent well-formed frame is still emitted
normally. -/
theorem C7_corruption_containment (M : Type) (dec : List Nat → Option M)
    (hd : List Nat) (bad : Frame) (fs : List Frame) (msgs : List M)
    (hsf : SepFreeHeader hd)
    (hncl : searchCL (hd.map (fun c => c % 128)) = none)
    (hbadwf : bad.Wf) (hbaddec : dec bad.body = none)
    (hwf : ∀ fr ∈ fs, fr.Wf)
    (hdec : List.Forall₂ (fun fr m => dec fr.body = some m) fs msgs) :
    feed dec initState ((hd ++ sepBytes) ++ framesBytes fs) = (initState, msgs) ∧
    feed dec initState (bad.bytes ++ framesBytes fs) = (initState, msgs) := by
  constructor
  · simp only [feed, initState, List.nil_append]
    rw [drainList_malformed_header dec hd _ hsf hncl, drainList_frames dec fs hwf,
      filterMap_dec_of_forall₂ dec fs msgs hdec]
    rfl
  · simp only [feed, initState, List.nil_append]
    rw [drainList_frame dec bad _ hbadwf, drainList_frames dec fs hwf, hbaddec,
      filterMap_dec_of_forall₂ dec fs msgs hdec]
    rfl

/-- Witness for C7: after the junk header block "X\r\n\r\n" (no length
field), and likewise after the frame "Content-Length: 1\r\n\r\na"
(undecodable body), the following valid frame "Content-Length: 2\r\n\r\n12"
is still emitted normally. -/
theorem C7_corruption_containment_witness :
    SepFreeHeader hdrJunk ∧
    searchCL (hdrJunk.map (fun c => c % 128)) = none ∧
    frBadBody.Wf ∧ decDigits frBadBody.body = none ∧
    (∀ fr ∈ [frTwelve], fr.Wf) ∧
    feed decDigits initState ((hdrJunk ++ sepBytes) ++ framesBytes [frTwelve]) =
      (initState, [12]) ∧
    feed decDigits initState (frBadBody.bytes ++ framesBytes [frTwelve]) =
      (initState, [12]) := by
  have hmain := C7_corruption_containment Nat decDigits hdrJunk frBadBody [frTwelve]
    [12] (by decide) (by decide) (by decide) (by decide) (by decide)
    (List.Forall₂.cons (by decide) List.Forall₂.nil)
  exact ⟨by decide, by decide, by decide, by decide, by decide, hmain.1, hmain.2⟩

/-! ### Message data model

Mirrors the TypeScript interfaces `LspMessage`, `Diagnostic` and
`PublishDiagnosticsParams`.  Fields typed `unknown` in the source (the
range, result and error payloads, and any extra params content the
spread operator carries through) are an opaque type parameter `V`. -/

/-- One diagnostic, as in the `Diagnostic` interface. -/
structure Diagnostic (V : Type) where
  severity : Option Int
  message : String
  range : V
  source : Option String
  code : Option (Int ⊕ String)
  tags : Option (List Int)
  deriving DecidableEq, Repr

/-- A runtime `params` value.  `pubDiag` is a value shaped like
`PublishDiagnosticsParams` (it has an array-valued `diagnostics` field,
a `uri`, and possibly further fields `extra` that spreads preserve);
`other` is any value without an array-valued `diagnostics` field, on
which `params.diagnostics.filter` throws. -/
inductive ParamsVal (V : Type) where
  | pubDiag (uri : String) (diagnostics : List (Diagnostic V)) (extra : V)
  | other (v : V)
  deriving DecidableEq, Repr

/-- The JSON-RPC envelope, as in the `LspMessage` interface. -/
structure LspMessage (V : Type) where
  jsonrpc : String
  id : Option (Int ⊕ String)
  method : Option String
  params : Option (ParamsVal V)
  result : Option V
  error : Option V
  deriving DecidableEq, Repr

/-! ### Runtime configuration (`config`) -/

/-- The resolved configuration.  `minSeverity` is the JavaScript number
produced by `parseInt`; `none` models `NaN`. -/
structure Config where
  dropAll : Bool
  minSeverity : Option Int
  debug : Bool
  deriving DecidableEq, Repr

/-- JavaScript `StrWhiteSpace` characters skipped by `parseInt`. -/
def isJsSpace (c : Char) : Bool :=
  decide (c.toNat = 32 ∨ c.toNat = 9 ∨ c.toNat = 10 ∨ c.toNat = 13 ∨
    c.toNat = 11 ∨ c.toNat = 12 ∨ c.toNat = 160 ∨ c.toNat = 65279)

/-- A decimal digit character. -/
def isDigitChar (c : Char) : Bool := decide (48 ≤ c.toNat ∧ c.toNat ≤ 57)

/-- Value of a digit list, most significant first. -/
def digitsVal (ds : List Char) : Int :=
  ds.foldl (fun a c => a * 10 + ((c.toNat : Int) - 48)) 0

/-- Model of JavaScript `parseInt(s, 10)`: skip leading whitespace, an
optional sign, then the maximal run of decimal digits; `NaN` (here
`none`) when that run is empty. -/
def jsParseInt10 (s : String) : Option Int :=
  let t := s.data.dropWhile isJsSpace
  match t with
  | '-' :: rest =>
    let ds := rest.takeWhile isDigitChar
    if ds = [] then none else some (-(digitsVal ds))
  | '+' :: rest =>
    let ds := rest.takeWhile isDigitChar
    if ds = [] then none else some (digitsVal ds)
  | rest =>
    let ds := rest.takeWhile isDigitChar
    if ds = [] then none else some (digitsVal ds)

/-- Model of `process.env.STAY_FRESH_DROP_DIAGNOSTICS !== "false"`
(`none` = variable absent). -/
def resolveDropAll (envVal : Option String) : Bool :=
  decide (envVal ≠ some "false")

/-- Model of `parseInt(process.env.STAY_FRESH_MIN_SEVERITY || "1", 10)`:
`||` substitutes `"1"` when the variable is absent or is the (falsy)
empty string. -/
def resolveMinSeverity (envVal : Option String) : Option Int :=
  jsParseInt10 (match envVal with
    | none => "1"
    | some s => if s = "" then "1" else s)

/-- Model of `process.env.STAY_FRESH_LOG === "true"`. -/
def resolveDebug (envVal : Option String) : Bool :=
  decide (envVal = some "true")

/-- The `config` object, resolved once from the three environment
variables. -/
def resolveConfig (drop minSev dbg : Option String) : Config :=
  ⟨resolveDropAll drop, resolveMinSeverity minSev, resolveDebug dbg⟩

/-! ### The diagnostic filter (`filterDiagnostics`) -/

/-- The one filtered method name. -/
def pubDiagMethod : String := "textDocument/publishDiagnostics"

/-- Result of `filterDiagnostics`: a forwarded message, `null`
(suppressed), or a thrown `TypeError`. -/
inductive FilterOutcome (V : Type) where
  | forwarded (m : LspMessage V)
  | suppressed
  | typeError
  deriving DecidableEq, Repr

/-- The predicate of `params.diagnostics.filter`:
`(d.severity ?? 1) <= config.minSeverity`.  When `minSeverity` is `NaN`
(`none`), the JavaScript comparison is false for every severity. -/
def keepDiag (cfg : Config) (d : Diagnostic V) : Bool :=
  match cfg.minSeverity with
  | some t => decide (d.severity.getD 1 ≤ t)
  | none => false

/-- `filterDiagnostics(msg)`: identity on every other method; `null`
under drop-all (the optional-chained log access cannot throw); otherwise
filter the diagnostics array, throwing when `msg.params` is absent or
has no array-valued `diagnostics` field. -/
def filterDiagnostics (cfg : Config) (msg : LspMessage V) : FilterOutcome V :=
  if msg.method ≠ some pubDiagMethod then .forwarded msg
  else if cfg.dropAll then .suppressed
  else
    match msg.params with
    | some (.pubDiag uri diags extra) =>
      .forwarded { msg with
        params := some (.pubDiag uri (diags.filter (keepDiag cfg)) extra) }
    | some (.other _) => .typeError
    | none => .typeError

/-! ### Filter fixtures for witnesses -/

/-- Default-style configuration: drop-all on, threshold 1. -/
def cfgDrop : Config := ⟨true, some 1, false⟩

/-- Filtering configuration: drop-all off, threshold 1. -/
def cfgKeepOne : Config := ⟨false, some 1, false⟩

/-- A diagnostic with the given severity and trivial other fields. -/
def diagSev (s : Option Int) : Diagnostic Unit := ⟨s, "m", (), none, none, none⟩

/-- A publish-diagnostics notification with the given params. -/
def msgPub (p : Option (ParamsVal Unit)) : LspMessage Unit :=
  ⟨"2.0", none, some pubDiagMethod, p, none, none⟩

/-- A non-target request message. -/
def msgFoo : LspMessage Unit :=
  ⟨"2.0", some (Sum.inl 1), some "foo", none, none, none⟩

/-- C2: when drop-all is active, the filter on any publish-diagnostics
message returns "suppressed", for every diagnostic content (including an
already-empty diagnostics sequence, and even a missing params value). -/
theorem C2_drop_all_suppresses (V : Type) (cfg : Config) (msg : LspMessage V)
    (hm : msg.method = some pubDiagMethod) (hd : cfg.dropAll = true) :
    filterDiagnostics cfg msg = FilterOutcome.suppressed := by
  unfold filterDiagnostics
  rw [if_neg (by simp [hm]), if_pos hd]

/-- Witness for C2: a publish-diagnostics message with an already-empty
diagnostics sequence is suppressed under drop-all. -/
theorem C2_drop_all_suppresses_witness :
    (msgPub (some (ParamsVal.pubDiag "file:///a.ts" [] ()))).method =
      some pubDiagMethod ∧
    cfgDrop.dropAll = true ∧
    filterDiagnostics cfgDrop (msgPub (some (ParamsVal.pubDiag "file:///a.ts" [] ()))) =
      FilterOutcome.suppressed :=
  ⟨rfl, rfl, C2_drop_all_suppresses Unit cfgDrop
    (msgPub (some (ParamsVal.pubDiag "file:///a.ts" [] ()))) rfl rfl⟩

/-- C5: for every message whose method is not the publish-diagnostics
notification, the filter is the identity, regardless of configuration. -/
theorem C5_identity_on_other_methods (V : Type) (cfg : Config)
    (msg : LspMessage V) (hm : msg.method ≠ some pubDiagMethod) :
    filterDiagnostics cfg msg = FilterOutcome.forwarded msg := by
  unfold filterDiagnostics
  rw [if_pos hm]

/-- Witness for C5: a request with method "foo" passes through unchanged
under the default configuration. -/
theorem C5_identity_on_other_methods_witness :
    msgFoo.method ≠ some pubDiagMethod ∧
    filterDiagnostics cfgDrop msgFoo = FilterOutcome.forwarded msgFoo :=
  ⟨by decide, C5_identity_on_other_methods Unit cfgDrop msgFoo (by decide)⟩

/-- C3: when drop-all is inactive with threshold `t`, the retained
diagnostics are exactly those whose severity (missing treated as 1) is
numerically at most `t`, and the survivors keep their original relative
order (they form a sublist). -/
theorem C3_severity_threshold (V : Type) (cfg : Config) (msg : LspMessage V)
    (uri : String) (diags : List (Diagnostic V)) (extra : V) (t : Int)
    (hm : msg.method = some pubDiagMethod) (hd : cfg.dropAll = false)
    (ht : cfg.minSeverity = some t)
    (hp : msg.params = some (ParamsVal.pubDiag uri diags extra)) :
    filterDiagnostics cfg msg =
      FilterOutcome.forwarded { msg with params := (some (ParamsVal.pubDiag uri
        (diags.filter (fun d => decide (d.severity.getD 1 ≤ t))) extra)) } ∧
    List.Sublist (diags.filter (fun d => decide (d.severity.getD 1 ≤ t))) diags ∧
    (∀ d, d ∈ diags.filter (fun d => decide (d.severity.getD 1 ≤ t)) ↔
      (d ∈ diags ∧ d.severity.getD 1 ≤ t)) := by
  have hkeep : keepDiag cfg = fun (d : Diagnostic V) => decide (d.severity.getD 1 ≤ t) := by
    funext d
    unfold keepDiag
    rw [ht]
  refine ⟨?_, List.filter_sublist diags, ?_⟩
  · unfold filterDiagnostics
    rw [if_neg (by simp [hm]), if_neg (by simp [hd]), hp, hkeep]
  · intro d
    rw [List.mem_filter, decide_eq_true_eq]

/-- Witness for C3: input severities `[1, 4]` with threshold 1 retain
only the severity-1 entry (the spec's own example). -/
theorem C3_severity_threshold_witness :
    (msgPub (some (ParamsVal.pubDiag "file:///a.ts"
        [diagSev (some 1), diagSev (some 4)] ()))).method = some pubDiagMethod ∧
    cfgKeepOne.dropAll = false ∧ cfgKeepOne.minSeverity = some 1 ∧
    filterDiagnostics cfgKeepOne
        (msgPub (some (ParamsVal.pubDiag "file:///a.ts"
          [diagSev (some 1), diagSev (some 4)] ()))) =
      FilterOutcome.forwarded
        (msgPub (some (ParamsVal.pubDiag "file:///a.ts" [diagSev (some 1)] ()))) := by
  have h := C3_severity_threshold Unit cfgKeepOne
    (msgPub (some (ParamsVal.pubDiag "file:///a.ts"
      [diagSev (some 1), diagSev (some 4)] ())))
    "file:///a.ts" [diagSev (some 1), diagSev (some 4)] () 1
    rfl rfl rfl rfl
  refine ⟨rfl, rfl, rfl, ?_⟩
  rw [h.1]
  decide

/-- C4: when drop-all is inactive and severity filtering removes every
diagnostic, the filter still forwards a message with the same target
identifier and an empty diagnostics sequence, rather than suppressing
it. -/
theorem C4_empty_result_forwarding (V : Type) (cfg : Config)
    (msg : LspMessage V) (uri : String) (diags : List (Diagnostic V)) (extra : V)
    (hm : msg.method = some pubDiagMethod) (hd : cfg.dropAll = false)
    (hp : msg.params = some (ParamsVal.pubDiag uri diags extra))
    (hnone : ∀ d ∈ diags, keepDiag cfg d = false) :
    filterDiagnostics cfg msg =
      FilterOutcome.forwarded { msg with params := (some (ParamsVal.pubDiag uri
        ([] : List (Diagnostic V)) extra)) } := by
  have hfil : diags.filter (keepDiag cfg) = [] :=
    List.filter_eq_nil_iff.mpr (fun d hdm => by simp [hnone d hdm])
  unfold filterDiagnostics
  rw [if_neg (by simp [hm]), if_neg (by simp [hd]), hp]
  dsimp only
  rw [hfil]

/-- Witness for C4: a single severity-4 diagnostic under threshold 1 is
removed, yet a message with the same uri and an empty sequence is still
forwarded. -/
theorem C4_empty_result_forwarding_witness :
    cfgKeepOne.dropAll = false ∧
    (∀ d ∈ [diagSev (some 4)], keepDiag cfgKeepOne d = false) ∧
    filterDiagnostics cfgKeepOne
        (msgPub (some (ParamsVal.pubDiag "file:///a.ts" [diagSev (some 4)] ()))) =
      FilterOutcome.forwarded
        (msgPub (some (ParamsVal.pubDiag "file:///a.ts" [] ()))) :=
  ⟨rfl, by decide, C4_empty_result_forwarding Unit cfgKeepOne
    (msgPub (some (ParamsVal.pubDiag "file:///a.ts" [diagSev (some 4)] ())))
    "file:///a.ts" [diagSev (some 4)] () rfl rfl rfl (by decide)⟩

/-- C10: the filter throws (dereferencing `params.diagnostics`
unchecked) exactly on a publish-diagnostics message, with drop-all
inactive, whose params value is absent or lacks an array-valued
diagnostics field; so its error branch is unreachable precisely when
every publish-diagnostics message carries a diagnostics array. -/
theorem C10_filter_throws_iff (V : Type) (cfg : Config) (msg : LspMessage V) :
    filterDiagnostics cfg msg = FilterOutcome.typeError ↔
      (msg.method = some pubDiagMethod ∧ cfg.dropAll = false ∧
        (msg.params = none ∨ ∃ v, msg.params = some (ParamsVal.other v))) := by
  unfold filterDiagnostics
  by_cases hm : msg.method = some pubDiagMethod
  · rw [if_neg (by simp [hm])]
    by_cases hd : cfg.dropAll = true
    · rw [if_pos hd]
      simp [hm, hd]
    · rw [if_neg hd]
      rcases hp : msg.params with _ | pv
      · simp [hm, hd, hp]
      · rcases pv with ⟨uri, diags, extra⟩ | v <;> simp [hm, hd, hp]
  · rw [if_pos hm]
    simp [hm]

/-! ### C8: minimum-severity resolution -/

/-- Counterexample to C8 as stated: the claim says an absent value
yields 1 and any present value yields the parsed number used as-is; but
for the present empty string, `"" || "1"` substitutes `"1"`, so the
threshold is 1 while `parseInt("", 10)` is `NaN`. -/
theorem C8_counterexample :
    ¬ (resolveMinSeverity none = some 1 ∧
       ∀ v : String, resolveMinSeverity (some v) = jsParseInt10 v) := by
  intro h
  have h2 := h.2 ""
  have h3 : resolveMinSeverity (some "") = some 1 := by decide
  have h4 : jsParseInt10 "" = none := by decide
  rw [h3, h4] at h2
  cases h2

/-- C8 amended: configuration resolution parses the minimum-severity
variable as an integer with default 1: an absent or (falsy) empty value
yields threshold 1, and any other present value yields the `parseInt`
result used as-is (out-of-range integers are not rejected). -/
theorem C8_min_severity_resolution :
    resolveMinSeverity none = some 1 ∧
    resolveMinSeverity (some "") = some 1 ∧
    (∀ s : String, s ≠ "" → resolveMinSeverity (some s) = jsParseInt10 s) := by
  refine ⟨by decide, by decide, ?_⟩
  intro s hs
  unfold resolveMinSeverity
  dsimp only
  rw [if_neg hs]

/-- Witness for C8: "4" parses to 4, and the out-of-range "99" is
passed through as 99. -/
theorem C8_min_severity_resolution_witness :
    (("4" : String) ≠ "") ∧ resolveMinSeverity (some "4") = jsParseInt10 "4" ∧
    (("99" : String) ≠ "") ∧ resolveMinSeverity (some "99") = some 99 := by
  refine ⟨by decide, C8_min_severity_resolution.2.2 "4" (by decide), by decide, ?_⟩
  rw [C8_min_severity_resolution.2.2 "99" (by decide)]
  decide

/-! ### Frame encoding (`encodeMessage`) -/

/-- Bytes of the string "Content-Length: " (`CONTENT_LENGTH_HEADER`). -/
def contentLengthHeaderBytes : List Nat :=
  [67, 111, 110, 116, 101, 110, 116, 45, 76, 101, 110, 103, 116, 104, 58, 32]

/-- UTF-8 encoding of one Unicode scalar value. -/
def utf8EncodeChar (c : Nat) : List Nat :=
  if c < 128 then [c]
  else if c < 2048 then [192 + c / 64, 128 + c % 64]
  else if c < 65536 then [224 + c / 4096, 128 + (c / 64) % 64, 128 + c % 64]
  else [240 + c / 262144, 128 + (c / 4096) % 64, 128 + (c / 64) % 64, 128 + c % 64]

/-- UTF-8 encoding of a text, given as its Unicode scalar values: what
`Buffer.from(text, "utf-8")` produces. -/
def utf8Encode (text : List Nat) : List Nat := (text.map utf8EncodeChar).flatten

/-- Decimal digit bytes of `n`, most significant first: the template
interpolation `${body.length}`. -/
def natToDigits (n : Nat) : List Nat :=
  if h : n < 10 then [48 + n] else natToDigits (n / 10) ++ [48 + n % 10]
termination_by n
decreasing_by omega

/-- `encodeMessage(msg)`: the ascii header
"Content-Length: <byte count>\r\n\r\n" followed by the UTF-8 body.
`ser` is `JSON.stringify`, giving the scalar values of the serialized
text (a JavaScript builtin, abstract here). -/
def encodeMessage (ser : M → List Nat) (msg : M) : List Nat :=
  (contentLengthHeaderBytes ++ natToDigits (utf8Encode (ser msg)).length) ++
    sepBytes ++ utf8Encode (ser msg)

theorem natToDigits_digits (n : Nat) : ∀ d ∈ natToDigits n, 48 ≤ d ∧ d ≤ 57 := by
  induction n using Nat.strong_induction_on with
  | _ n ih =>
    rw [natToDigits]
    split
    · rename_i h
      intro d hd
      simp only [List.mem_singleton] at hd
      omega
    · rename_i h
      intro d hd
      rw [List.mem_append] at hd
      rcases hd with hd | hd
      · exact ih (n / 10) (by omega) d hd
      · simp only [List.mem_singleton] at hd
        omega

theorem natToDigits_ne_nil (n : Nat) : natToDigits n ≠ [] := by
  rw [natToDigits]
  split <;> simp

theorem parseDigits_natToDigits (n : Nat) : parseDigits (natToDigits n) = n := by
  induction n using Nat.strong_induction_on with
  | _ n ih =>
    rw [natToDigits]
    split
    · rename_i h
      show (0 : Nat) * 10 + (48 + n - 48) = n
      omega
    · rename_i h
      unfold parseDigits
      rw [List.foldl_append]
      simp only [List.foldl_cons, List.foldl_nil]
      have hrec := ih (n / 10) (by omega)
      unfold parseDigits at hrec
      rw [hrec]
      omega

theorem matchCLAt_header (n : Nat) :
    matchCLAt (contentLengthHeaderBytes ++ natToDigits n) = some n := by
  rcases hnd : natToDigits n with _ | ⟨d, ds⟩
  · exact absurd hnd (natToDigits_ne_nil n)
  · have hd48 : 48 ≤ d ∧ d ≤ 57 :=
      natToDigits_digits n d (by rw [hnd]; exact List.mem_cons_self d ds)
    have hdigall : ∀ a ∈ d :: ds, isDigitCh a = true := by
      intro a ha
      have hb := natToDigits_digits n a (by rw [hnd]; exact ha)
      exact decide_eq_true hb
    have hdns : isSpaceCh d = false := by
      apply decide_eq_false
      omega
    have hdw : List.dropWhile isSpaceCh (d :: ds) = d :: ds := by
      rw [List.dropWhile_cons, if_neg (by simp [hdns])]
    have htw : List.takeWhile isDigitCh (d :: ds) = d :: ds :=
      List.takeWhile_eq_self_iff.mpr hdigall
    unfold matchCLAt
    rw [List.take_append_of_le_length (by decide), if_pos (by decide),
      List.drop_append_of_le_length (by decide),
      show contentLengthHeaderBytes.drop 15 = [32] from rfl,
      List.singleton_append, List.dropWhile_cons,
      if_pos (show isSpaceCh 32 = true from rfl), hdw, htw,
      if_neg (show ¬(d :: ds = []) from by simp), ← hnd, parseDigits_natToDigits]

theorem map_mod128_id (l : List Nat) (h : ∀ a ∈ l, a % 128 = a) :
    l.map (fun c => c % 128) = l := by
  induction l with
  | nil => rfl
  | cons a t ih =>
    simp only [List.map_cons, List.cons.injEq]
    exact ⟨h a (List.mem_cons_self a t), ih (fun b hb => h b (List.mem_cons_of_mem a hb))⟩

theorem searchCL_cons_of_match (c : Nat) (rest : List Nat) (n : Nat)
    (h : matchCLAt (c :: rest) = some n) : searchCL (c :: rest) = some n := by
  unfold searchCL
  rw [h]

theorem searchCL_header (n : Nat) :
    searchCL ((contentLengthHeaderBytes ++ natToDigits n).map
      (fun c => c % 128)) = some n := by
  have hmask : (contentLengthHeaderBytes ++ natToDigits n).map (fun c => c % 128) =
      contentLengthHeaderBytes ++ natToDigits n := by
    have h1 : contentLengthHeaderBytes.map (fun c => c % 128) =
        contentLengthHeaderBytes := by decide
    have h2 : (natToDigits n).map (fun c => c % 128) = natToDigits n := by
      apply map_mod128_id
      intro a ha
      have := natToDigits_digits n a ha
      omega
    rw [List.map_append, h1, h2]
  rw [hmask]
  exact searchCL_cons_of_match 67 _ n (matchCLAt_header n)

/-- C9: for every message (every serialized text, multi-byte or not),
the frame produced by `encodeMessage` is a header block, the blank-line
separator, then exactly the UTF-8 bytes of the serialized body; and the
length the header declares (as read back by the Content-Length regex)
equals the number of UTF-8 encoded bytes of that body — a byte count,
not a character count. -/
theorem C9_encode_declared_length (M : Type) (ser : M → List Nat) (msg : M) :
    encodeMessage ser msg =
      (contentLengthHeaderBytes ++ natToDigits (utf8Encode (ser msg)).length) ++
        sepBytes ++ utf8Encode (ser msg) ∧
    searchCL ((contentLengthHeaderBytes ++
        natToDigits (utf8Encode (ser msg)).length).map (fun c => c % 128)) =
      some (utf8Encode (ser msg)).length :=
  ⟨rfl, searchCL_header (utf8Encode (ser msg)).length⟩

end StayFresh
